import Mathlib

/-!
Verification development for the DocStability repository.

The repository analyses a git repository's commit history to quantify how
"project health" documentation (README, CONTRIBUTING, LICENSE, ...) is
maintained.  This file gives a shallow embedding of the pure computational
core of the Python sources:

* `rhythm.py`              : path classification, windowed rhythm metrics;
* `Intention_docs.py`      : commit classification and partition counters;
* `doc_commit_ownership.py`: identity normalisation, bot detection,
                             ownership counters;
* `doc_entropy.py`         : month skeleton, entropy, gini over counts;
* `contrib_concentration.py`: contributor gini and bot detection.

Python regular expressions (compiled with `re.IGNORECASE` and applied with
`re.match` / `re.search`) are embedded with a small Brzozowski-derivative
matcher over `List Char`.  Anchors are translated at the pattern level:
a pattern of the form `^X$` used with `re.match` is a full match of `X`,
a pattern `^X` used with `re.search` is a prefix match of `X`, a pattern
`X$` used with `re.search` is a suffix match of `X`, and `(^|/)X` used with
`re.search` matches `X` at the start or `/X` anywhere.  `IGNORECASE` is
embedded by ASCII-lowercasing the subject string and writing the pattern
literals in lowercase (all pattern literals are ASCII).  Python floats are
embedded as exact rationals (`ℚ`) except for the transcendental library
calls `math.log` (embedded as `Real.log`) and `math.sqrt` (embedded as an
explicit function parameter, since the only fact the claims need is
`sqrt 0 = 0`).
-/

namespace DocStability

/-! ### Brzozowski-derivative regular-expression engine -/

/-- Regular expressions over characters: empty language, empty string,
a single character, any character except newline (Python `.`), any
character except the listed ones (negated class such as `[^/]`),
sequencing, alternation and Kleene star. -/
inductive RE : Type
  | emp : RE
  | eps : RE
  | chr : Char → RE
  | dotAny : RE
  | notOf : List Char → RE
  | seq : RE → RE → RE
  | alt : RE → RE → RE
  | star : RE → RE
  deriving Repr

/-- Does the regular expression accept the empty string? -/
def nullable : RE → Bool
  | .emp => false
  | .eps => true
  | .chr _ => false
  | .dotAny => false
  | .notOf _ => false
  | .seq a b => nullable a && nullable b
  | .alt a b => nullable a || nullable b
  | .star _ => true

/-- Brzozowski derivative of a regular expression by a character. -/
def deriv : RE → Char → RE
  | .emp, _ => .emp
  | .eps, _ => .emp
  | .chr c, d => if c = d then .eps else .emp
  | .dotAny, d => if d = '\n' then .emp else .eps
  | .notOf cs, d => if d ∈ cs then .emp else .eps
  | .seq a b, d =>
      if nullable a then .alt (.seq (deriv a d) b) (deriv b d)
      else .seq (deriv a d) b
  | .alt a b, d => .alt (deriv a d) (deriv b d)
  | .star a, d => .seq (deriv a d) (.star a)

/-- Does the expression match the whole string? -/
def fullmatch (r : RE) (s : List Char) : Bool :=
  nullable (s.foldl deriv r)

/-- Does the expression match some prefix of the string?  This is the
semantics of Python's `re.match` (for a pattern without anchors). -/
def matchPref : RE → List Char → Bool
  | r, [] => nullable r
  | r, c :: cs => nullable r || matchPref (deriv r c) cs

/-- Does the expression match some substring of the string?  This is the
semantics of Python's `re.search` (for a pattern without anchors). -/
def searchRE : RE → List Char → Bool
  | r, [] => nullable r
  | r, c :: cs => matchPref r (c :: cs) || searchRE r cs

/-- Does the expression match some suffix of the string in full?  This is
the semantics of `re.search` for a pattern of the form `X$`. -/
def searchEnd (r : RE) (s : List Char) : Bool :=
  s.tails.any (fun t => fullmatch r t)

/-- Literal string as a regular expression. -/
def litR : List Char → RE
  | [] => .eps
  | c :: cs => .seq (.chr c) (litR cs)

/-- Literal from a string literal. -/
def litS (s : String) : RE := litR s.data

/-- Optional group `(...)?`. -/
def optR (r : RE) : RE := .alt .eps r

/-- One-or-more `(...)+`. -/
def plusR (r : RE) : RE := .seq r (.star r)

/-- Alternation of literal words, as in `(png|jpg|pdf)`. -/
def wordAlt : List String → RE
  | [] => .emp
  | [w] => litS w
  | w :: ws => .alt (litS w) (wordAlt ws)

/-! ### Python string helpers -/

/-- Characters removed by Python's `str.strip()`. -/
def isPySpace (c : Char) : Bool :=
  c = ' ' || c = '\t' || c = '\n' || c = '\r' || c = '\x0b' || c = '\x0c'

/-- Python `str.strip()`: remove leading and trailing whitespace. -/
def pyStrip (s : List Char) : List Char :=
  ((s.dropWhile isPySpace).reverse.dropWhile isPySpace).reverse

/-- ASCII lowercasing of one character (`str.lower()` on the ASCII range;
every pattern literal in the sources is ASCII). -/
def lowerChar (c : Char) : Char :=
  if 'A' ≤ c ∧ c ≤ 'Z' then Char.ofNat (c.toNat + 32) else c

/-- ASCII lowercasing of a string. -/
def lowerStr (s : List Char) : List Char := s.map lowerChar

/-- Source `path.replace("\\", "/")`: normalise backslashes to forward slashes. -/
def normSlash (s : List Char) : List Char :=
  s.map (fun c => if c = '\\' then '/' else c)

/-! ### Compiled-pattern embeddings

A compiled Python pattern (with `re.IGNORECASE`) applied through `.match`
or `.search` is embedded as a boolean function on the subject string.
The four builders fix the anchor discipline described in the header. -/

/-- A compiled pattern applied to a path or name string. -/
abbrev Matcher := List Char → Bool

/-- Source `re.match` with a pattern `^X$`: full match of `X` (case-insensitive). -/
def mFull (r : RE) : Matcher := fun s => fullmatch r (lowerStr s)

/-- Source `re.search` with a pattern `^X`: prefix match of `X`. -/
def mStart (r : RE) : Matcher := fun s => matchPref r (lowerStr s)

/-- Source `re.search` with an unanchored pattern `X`. -/
def mSearch (r : RE) : Matcher := fun s => searchRE r (lowerStr s)

/-- Source `re.search` with a pattern `X$`: suffix match of `X`. -/
def mEnd (r : RE) : Matcher := fun s => searchEnd r (lowerStr s)

/-- Source `re.search` with a pattern `(^|/)X`: `X` at the start, or `/X`
anywhere. -/
def mStartOrSlash (r : RE) : Matcher := fun s =>
  matchPref r (lowerStr s) || searchRE (.seq (.chr '/') r) (lowerStr s)

/-- Source `re.search` with a pattern `(^|/)X$`: the whole string is `X`, or
`/X` is a suffix. -/
def mStartOrSlashEnd (r : RE) : Matcher := fun s =>
  fullmatch r (lowerStr s) || searchEnd (.seq (.chr '/') r) (lowerStr s)

/-! ### The health-file include patterns

`ROOT_HEALTH_FILES` from `rhythm.py` (the identical list is repeated in
`Intention_docs.py`, `doc_commit_ownership.py` and `doc_entropy.py`).
Every entry has the form `^BASE(?:\..+)?$` and is applied with
`re.match`, hence embedded as a full match of
`BASE` optionally followed by a dot and one or more characters. -/

/-- Source `^BASE(?:\..+)?$` applied with `re.match`. -/
def healthPat (base : RE) : Matcher :=
  mFull (.seq base (optR (.seq (.chr '.') (plusR .dotAny))))

/-- The `ROOT_HEALTH_FILES` pattern list (order as in the source). -/
def ROOT_HEALTH_FILES : List Matcher :=
  [ healthPat (litS "readme"),                     -- ^README(?:\..+)?$
    healthPat (litS "contributing"),               -- ^CONTRIBUTING(?:\..+)?$
    healthPat (litS "contributors"),               -- ^CONTRIBUTORS(?:\..+)?$
    healthPat (litS "commit_conventions"),         -- ^COMMIT_CONVENTIONS(?:\..+)?$
    healthPat (litS "pull_request_template"),      -- ^PULL_REQUEST_TEMPLATE(?:\..+)?$
    healthPat (litS "issue_template"),             -- ^ISSUE_TEMPLATE(?:\..+)?$
    healthPat (litS "building"),                   -- ^BUILDING(?:\..+)?$
    healthPat (litS "changelog"),                  -- ^CHANGELOG(?:\..+)?$
    healthPat (litS "history"),                    -- ^HISTORY(?:\..+)?$
    healthPat (.seq (litS "release") (optR (.chr 's'))),  -- ^RELEASES?(?:\..+)?$
    healthPat (litS "code_of_conduct"),            -- ^CODE_OF_CONDUCT(?:\..+)?$
    healthPat (litS "governance"),                 -- ^GOVERNANCE(?:\..+)?$
    healthPat (litS "support"),                    -- ^SUPPORT(?:\..+)?$
    healthPat (litS "maintainers"),                -- ^MAINTAINERS(?:\..+)?$
    healthPat (litS "security"),                   -- ^SECURITY(?:\..+)?$
    healthPat (litS "license"),                    -- ^LICENSE(?:\..+)?$
    healthPat (litS "notice"),                     -- ^NOTICE(?:\..+)?$
    healthPat (litS "copying"),                    -- ^COPYING(?:\..+)?$
    healthPat (litS "authors"),                    -- ^AUTHORS(?:\..+)?$
    healthPat (litS "credits"),                    -- ^CREDITS(?:\..+)?$
    healthPat (litS "thanks"),                     -- ^THANKS(?:\..+)?$
    healthPat (litS "roadmap"),                    -- ^ROADMAP(?:\..+)?$
    healthPat (litS "vision"),                     -- ^VISION(?:\..+)?$
    healthPat (litS ".github/security"),           -- ^\.github/SECURITY(?:\..+)?$
    healthPat (litS ".github/contributing"),       -- ^\.github/CONTRIBUTING(?:\..+)?$
    healthPat (litS ".github/code_of_conduct"),    -- ^\.github/CODE_OF_CONDUCT(?:\..+)?$
    healthPat (litS ".github/support"),            -- ^\.github/SUPPORT(?:\..+)?$
    healthPat (litS ".github/commit_conventions"), -- ^\.github/COMMIT_CONVENTIONS(?:\..+)?$
    healthPat (litS ".github/pull_request_template"), -- ^\.github/PULL_REQUEST_TEMPLATE(?:\..+)?$
    healthPat (litS ".github/issue_template"),     -- ^\.github/ISSUE_TEMPLATE(?:\..+)?$
    healthPat (litS ".github/building"),           -- ^\.github/BUILDING(?:\..+)?$
    healthPat (litS ".gitlab/contributing"),       -- ^\.gitlab/CONTRIBUTING(?:\..+)?$
    healthPat (litS ".gitlab/code_of_conduct"),    -- ^\.gitlab/CODE_OF_CONDUCT(?:\..+)?$
    healthPat (litS ".gitlab/commit_conventions"), -- ^\.gitlab/COMMIT_CONVENTIONS(?:\..+)?$
    healthPat (litS ".gitlab/pull_request_template"), -- ^\.gitlab/PULL_REQUEST_TEMPLATE(?:\..+)?$
    healthPat (litS ".gitlab/issue_template"),     -- ^\.gitlab/ISSUE_TEMPLATE(?:\..+)?$
    healthPat (litS ".gitlab/building") ]          -- ^\.gitlab/BUILDING(?:\..+)?$

/-! ### The exclusion patterns

`EXCLUDE_PATTERNS` from `rhythm.py` (identically repeated in the three
other analysis tools), applied with `re.search`. -/

/-- One or more characters other than `/`, i.e. `[^/]+`. -/
def seg : RE := plusR (.notOf ['/'])

/-- A literal word with an optional trailing `s` and a trailing slash,
as in `plugins?/`. -/
def optS (w : String) : RE := .seq (litS w) (.seq (optR (.chr 's')) (.chr '/'))

/-- The `EXCLUDE_PATTERNS` list (order as in the source). -/
def EXCLUDE_PATTERNS : List Matcher :=
  [ mStart (.seq seg (.seq (.chr '/') (.seq seg (.chr '/')))), -- ^[^/]+/[^/]+/
    mStart (litS "libs/"),                         -- ^libs/
    mStart (litS "modules/"),                      -- ^modules/
    mStart (litS "x-pack/"),                       -- ^x-pack/
    mStart (optS "plugin"),                        -- ^plugins?/
    mStart (optS "package"),                       -- ^packages?/
    mStart (litS "distribution/"),                 -- ^distribution/
    mStart (litS "build-tools"),                   -- ^build-tools
    mStart (litS "qa/"),                           -- ^qa/
    mStart (litS "test/"),                         -- ^test/
    mStart (optS "benchmark"),                     -- ^benchmarks?/
    mStart (litS "src/"),                          -- ^src/
    mSearch (litS "/src/"),                        -- /src/
    mStartOrSlash (litS "node_modules/"),          -- (^|/)node_modules/
    mStartOrSlash (litS "vendor/"),                -- (^|/)vendor/
    mStartOrSlash (litS "dist/"),                  -- (^|/)dist/
    mStartOrSlash (litS "build/"),                 -- (^|/)build/
    mStartOrSlash (litS "site/"),                  -- (^|/)site/
    mStartOrSlash (litS "out/"),                   -- (^|/)out/
    mStartOrSlash (litS "target/"),                -- (^|/)target/
    mStartOrSlash (litS ".git/"),                  -- (^|/)\.git/
    mStartOrSlash (optS "doc"),                    -- (^|/)docs?/
    mStartOrSlash (litS "documentation/"),         -- (^|/)documentation/
    mStartOrSlash (litS "wiki/"),                  -- (^|/)wiki/
    mStartOrSlash (optS "guide"),                  -- (^|/)guides?/
    mStartOrSlash (optS "tutorial"),               -- (^|/)tutorials?/
    mStartOrSlash (optS "example"),                -- (^|/)examples?/
    mStartOrSlash (litS "man/"),                   -- (^|/)man/
    mStartOrSlash (litS "api/"),                   -- (^|/)api/
    mStartOrSlash (litS "reference/"),             -- (^|/)reference/
    mEnd (.seq (.chr '.') (wordAlt ["png", "jpg", "jpeg", "gif", "svg", "ico", "pdf"])),
      -- \.(png|jpg|jpeg|gif|svg|ico|pdf)$
    mEnd (.seq (.chr '.') (wordAlt ["zip", "tar", "gz", "bz2", "7z", "rar"])),
      -- \.(zip|tar|gz|bz2|7z|rar)$
    mEnd (.seq (.chr '.') (wordAlt ["exe", "dll", "so", "dylib", "bin"])),
      -- \.(exe|dll|so|dylib|bin)$
    mEnd (.seq (.chr '.') (wordAlt ["java", "py", "js", "ts", "go", "rs", "cpp", "c", "h", "hpp"])),
      -- \.(java|py|js|ts|go|rs|cpp|c|h|hpp)$
    mEnd (.seq (.chr '.') (wordAlt ["scala", "kt", "swift", "rb", "php", "cs", "fs"])),
      -- \.(scala|kt|swift|rb|php|cs|fs)$
    mStartOrSlash (litS "test/"),                  -- (^|/)test/
    mStartOrSlash (litS "tests/"),                 -- (^|/)tests/
    mSearch (litS "/resources/"),                  -- /resources/
    mEnd (.seq (.chr '.') (.seq (wordAlt ["cef", "json", "xml", "yaml", "yml"]) (litS ".txt"))),
      -- \.(cef|json|xml|yaml|yml)\.txt$
    mStartOrSlashEnd (litS "conf.py"),             -- (^|/)conf\.py$
    mStartOrSlashEnd (litS "_config.yml"),         -- (^|/)_config\.yml$
    mStartOrSlashEnd (litS "mkdocs.yml"),          -- (^|/)mkdocs\.yml$
    mStartOrSlashEnd (litS "doxyfile"),            -- (^|/)Doxyfile$
    mEnd (litS "output.txt"),                      -- output\.txt$
    mSearch (.seq (litS "/translation") (.seq (optR (.chr 's')) (.chr '/'))), -- /translations?/
    mSearch (litS "/i18n/"),                       -- /i18n/
    mSearch (.seq (litS "/locale") (.seq (optR (.chr 's')) (.chr '/'))),      -- /locales?/
    mEnd (.seq (.chr '.') (.seq (wordAlt ["zh", "ja", "ko", "fr", "de", "es", "it", "pt", "ru"]) (litS ".md"))) ]
      -- \.(zh|ja|ko|fr|de|es|it|pt|ru)\.md$

/-! ### Path classification (identical in all four analysis tools) -/

/-- Source `is_excluded(path, excl_rx)`: normalise backslashes, then test whether
any exclusion pattern finds a match. -/
def is_excluded (path : List Char) (excl_rx : List Matcher) : Bool :=
  excl_rx.any (fun rx => rx (normSlash path))

/-- Source `is_health_file(path, health_rx)`: normalise backslashes, then test
whether any health pattern matches. -/
def is_health_file (path : List Char) (health_rx : List Matcher) : Bool :=
  health_rx.any (fun rx => rx (normSlash path))

/-- Source `get_health_files(files, health_rx, excl_rx)`: collect the files that
are not excluded and match a health pattern.  Exclusions are checked
first and win. -/
def get_health_files (files : List (List Char))
    (health_rx excl_rx : List Matcher) : List (List Char) :=
  match files with
  | [] => []
  | f :: fs =>
      if is_excluded f excl_rx then get_health_files fs health_rx excl_rx
      else if is_health_file f health_rx then
        f :: get_health_files fs health_rx excl_rx
      else get_health_files fs health_rx excl_rx

/-- The per-path decision implicit in the body of `get_health_files`
(and in the spec's `classify(path) -> bool` contract): excluded paths are
never health docs; of the rest, exactly those matching a health pattern
qualify. -/
def classify_path (health_rx excl_rx : List Matcher) (p : List Char) : Bool :=
  if is_excluded p excl_rx then false else is_health_file p health_rx

/-! ### Bot detection

`BOT_PATTERNS` is identical in `doc_commit_ownership.py` and
`contrib_concentration.py`.  All entries are case-insensitive substring
searches except the three word-bounded ones (`\bbot\b`, `\bbots\b`,
`\bbors\b`), which are embedded with an explicit word-boundary search.
Python's `\w` also covers non-ASCII word characters; the embedding uses
the ASCII range, which agrees with Python on all ASCII subjects. -/

/-- A word character for `\b`, restricted to ASCII on a lowercased
subject: `[a-z0-9_]`. -/
def isWordChar (c : Char) : Bool :=
  ('a' ≤ c && c ≤ 'z') || ('0' ≤ c && c ≤ '9') || c = '_'

/-- Does `s` start with the word `w` followed by a word boundary? -/
def wbAt : List Char → List Char → Bool
  | [], [] => true
  | [], c :: _ => !isWordChar c
  | _ :: _, [] => false
  | c :: w, d :: s => c = d && wbAt w s

/-- Source `re.search` for `\bw\b`: an occurrence of `w` with non-word (or
absent) characters on both sides.  `pw` records whether the character
before the current position is a word character. -/
def wbSearch (w : List Char) (pw : Bool) : List Char → Bool
  | [] => !pw && wbAt w []
  | c :: s => (!pw && wbAt w (c :: s)) || wbSearch w (isWordChar c) s

/-- Source `re.search` with a pattern `\bw\b` (case-insensitive). -/
def mWord (w : String) : Matcher := fun s => wbSearch w.data false (lowerStr s)

/-- The `BOT_PATTERNS` list, compiled (order as in the source). -/
def BOT_RX : List Matcher :=
  [ mWord "bot",                                   -- \bbot\b
    mWord "bots",                                  -- \bbots\b
    mSearch (litS "github-actions"),
    mSearch (litS "dependabot"),
    mSearch (litS "renovate"),
    mSearch (litS "greenkeeper"),
    mSearch (litS "codecov"),
    mSearch (litS "coveralls"),
    mSearch (litS "travis-ci"),
    mSearch (litS "circleci"),
    mSearch (litS "jenkins"),
    mSearch (litS "azure-pipelines"),
    mWord "bors",                                  -- \bbors\b
    mSearch (litS "homu"),
    mSearch (litS "mergify"),
    mSearch (litS "kodiak"),
    mSearch (litS "auto-merge"),
    mSearch (litS "rust-timer"),
    mSearch (litS "rustbot"),
    mSearch (litS "rust-highfive"),
    mSearch (litS "kubernetes-"),
    mSearch (litS "k8s-ci-robot"),
    mSearch (litS "automation"),
    mSearch (litS "[bot]"),                        -- \[bot\]
    mSearch (litS "(bot)"),                        -- \(bot\)
    mSearch (litS "service account"),
    mSearch (litS "noreply@"),
    mSearch (litS "github.com"),                   -- github\.com
    mSearch (litS "automated"),
    mSearch (litS "version-bump"),
    mSearch (litS "release-bot"),
    mSearch (litS "changelog-bot"),
    mSearch (litS "homebrew-"),
    mSearch (litS "allcontributors") ]

/-- The combined subject string `f"{name.strip()} <{email.strip()}>"`
(stripped again) used by `doc_commit_ownership.looks_like_bot`. -/
def botSubject (name email : List Char) : List Char :=
  pyStrip (pyStrip name ++ (' ' :: '<' :: pyStrip email) ++ ['>'])

/-- Source `doc_commit_ownership.looks_like_bot(name, email)`. -/
def looks_like_bot (name email : List Char) : Bool :=
  BOT_RX.any (fun rx => rx (botSubject name email))

/-- The combined subject string `f"{author_name} {author_email}".strip()`
used by `contrib_concentration.looks_like_bot`. -/
def ccBotSubject (name email : List Char) : List Char :=
  pyStrip (name ++ ' ' :: email)

/-- Source `contrib_concentration.looks_like_bot(author_name, author_email)`:
returns `(is_bot, matched_patterns)`; the matched patterns are returned
as the compiled matchers themselves. -/
def cc_looks_like_bot (name email : List Char) : Bool × List Matcher :=
  let matched := BOT_RX.filter (fun rx => rx (ccBotSubject name email))
  (!matched.isEmpty, matched)

/-! ### Identity normalisation (`doc_commit_ownership.py`) -/

/-- Is `c` an ASCII digit (`\d` on ASCII subjects)? -/
def isDigitChar (c : Char) : Bool := '0' ≤ c && c ≤ '9'

/-- The capture group `.+@users\.noreply\.github\.com` of the
normalisation regex. -/
def noreplyGroupRE : RE :=
  .seq (plusR .dotAny) (litS "@users.noreply.github.com")

/-- Source `normalize_email(email)`: strip and lowercase; a match of
`^\d+\+(.+@users\.noreply\.github\.com)$` collapses to the capture group.
The regex's greedy `\d+` takes the maximal digit prefix, which must be
followed by a literal `+`; the capture group is everything after that
`+`. -/
def normalize_email (email : List Char) : List Char :=
  let e := lowerStr (pyStrip email)
  let d := e.takeWhile isDigitChar
  let rest := e.drop d.length
  match rest with
  | '+' :: tail =>
      if d ≠ [] ∧ fullmatch noreplyGroupRE tail then tail else e
  | _ => e

/-- Source `re.sub(r"\s+", " ", s)`: replace each maximal whitespace run by a
single space.  The flag records whether the previous character was
whitespace (i.e. whether we are inside a run). -/
def collapseWsGo : Bool → List Char → List Char
  | _, [] => []
  | inWs, c :: cs =>
      if isPySpace c then
        if inWs then collapseWsGo true cs else ' ' :: collapseWsGo true cs
      else c :: collapseWsGo false cs

/-- Source `re.sub(r"\s+", " ", s)`. -/
def collapseWs (s : List Char) : List Char := collapseWsGo false s

/-- Source `normalize_name(name)`. -/
def normalize_name (name : List Char) : List Char :=
  lowerStr (collapseWs (pyStrip name))

/-- Source `author_id(name, email)`: the normalised email when non-empty,
otherwise the normalised name behind a `name:` marker. -/
def author_id (name email : List Char) : List Char :=
  let e := normalize_email email
  if e = [] then ("name:".data ++ normalize_name name) else e

/-- Modelled from the spec: the spec's identity normalisation collapses
`digits+local@users.noreply.<host>` for *every* host (the words "of the
form `digits+local@users.noreply.<host>`"), whereas the code fixes the
host to `github.com`.  This definition follows the spec's words and is
used only to compare the two. -/
def spec_normalize_email (email : List Char) : List Char :=
  let e := lowerStr (pyStrip email)
  let d := e.takeWhile isDigitChar
  let rest := e.drop d.length
  match rest with
  | '+' :: tail =>
      if d ≠ [] ∧
          fullmatch (.seq (plusR .dotAny)
            (.seq (litS "@users.noreply.") (plusR .dotAny))) tail then
        tail
      else e
  | _ => e

/-! ### Commit classification (`Intention_docs.py` main loop,
identically re-implemented in `doc_commit_ownership.py`) -/

/-- The three sub-categories of a health-doc-touching commit. -/
inductive DocCat : Type
  | only : DocCat
  | dominant : DocCat
  | nonDominant : DocCat
  deriving DecidableEq, Repr

/-- Per-commit classification: `none` when the commit touches no health
doc; otherwise `only` / `dominant` / `nonDominant` by the file-share
test `len(health)/(len(health)+len(other)) >= threshold`.  Excluded
paths count as neither health nor other. -/
def classify_commit (health_rx excl_rx : List Matcher) (t : ℚ)
    (files : List (List Char)) : Option DocCat :=
  let health_files := get_health_files files health_rx excl_rx
  if health_files = [] then none
  else
    let other_files := files.filter
      (fun f => !is_excluded f excl_rx && !is_health_file f health_rx)
    if other_files = [] then some .only
    else if (health_files.length : ℚ) /
        ((health_files.length : ℚ) + (other_files.length : ℚ)) ≥ t then
      some .dominant
    else some .nonDominant

/-- The four counters accumulated by `Intention_docs.main`. -/
structure IntentionCounts : Type where
  touch : ℕ
  only : ℕ
  dominant : ℕ
  nonDominant : ℕ
  deriving DecidableEq, Repr

/-- One iteration of the `Intention_docs.main` loop over one commit's
file list. -/
def intention_step (health_rx excl_rx : List Matcher) (t : ℚ)
    (st : IntentionCounts) (files : List (List Char)) : IntentionCounts :=
  match classify_commit health_rx excl_rx t files with
  | none => st
  | some .only =>
      { st with touch := st.touch + 1, only := st.only + 1 }
  | some .dominant =>
      { st with touch := st.touch + 1, dominant := st.dominant + 1 }
  | some .nonDominant =>
      { st with touch := st.touch + 1, nonDominant := st.nonDominant + 1 }

/-- The `Intention_docs.main` counting loop over a commit sequence. -/
def intention_run (health_rx excl_rx : List Matcher) (t : ℚ)
    (commits : List (List (List Char))) : IntentionCounts :=
  commits.foldl (intention_step health_rx excl_rx t) ⟨0, 0, 0, 0⟩

/-! ### Ownership counters (`doc_commit_ownership.py` main loop) -/

/-- A commit record as consumed by the ownership tool: author name and
email, and the changed file paths. -/
structure OCommit : Type where
  name : List Char
  email : List Char
  files : List (List Char)

/-- A Python `dict` from author id to commit count, with insertion order:
`d[aid] = d.get(aid, 0) + 1`. -/
def bump : List (List Char × ℕ) → List Char → List (List Char × ℕ)
  | [], k => [(k, 1)]
  | (k', v) :: rest, k =>
      if k' = k then (k', v + 1) :: rest else (k', v) :: bump rest k

/-- The four per-category count dictionaries (`touch`, `only`,
`dominant`, `non-dominant`). -/
structure OwnCounts : Type where
  touch : List (List Char × ℕ)
  only : List (List Char × ℕ)
  dominant : List (List Char × ℕ)
  nonDominant : List (List Char × ℕ)
  deriving DecidableEq

/-- Bump the `touch` dictionary and the dictionary of the commit's
category for author `aid`. -/
def bumpCat (c : OwnCounts) (cat : DocCat) (aid : List Char) : OwnCounts :=
  match cat with
  | .only => { c with touch := bump c.touch aid, only := bump c.only aid }
  | .dominant =>
      { c with touch := bump c.touch aid, dominant := bump c.dominant aid }
  | .nonDominant =>
      { c with touch := bump c.touch aid, nonDominant := bump c.nonDominant aid }

/-- The full loop state of `doc_commit_ownership.main`: the all-author
counters (`_all`, rhythm-aligned), the attribution counters (`_attr`,
bots skipped unless `include_bots`), and `total_commits_in_range`. -/
structure OwnState : Type where
  all : OwnCounts
  attr : OwnCounts
  total : ℕ

/-- One iteration of the `doc_commit_ownership.main` loop. -/
def own_step (health_rx excl_rx : List Matcher) (include_bots : Bool)
    (t : ℚ) (st : OwnState) (c : OCommit) : OwnState :=
  let total := st.total + 1
  let is_bot := looks_like_bot c.name c.email
  match classify_commit health_rx excl_rx t c.files with
  | none => { st with total := total }
  | some cat =>
      let aid := author_id c.name c.email
      { all := bumpCat st.all cat aid
        attr := if include_bots || !is_bot then bumpCat st.attr cat aid
                else st.attr
        total := total }

/-- The empty ownership state. -/
def ownInit : OwnState := ⟨⟨[], [], [], []⟩, ⟨[], [], [], []⟩, 0⟩

/-- The `doc_commit_ownership.main` loop over a commit sequence. -/
def own_run (health_rx excl_rx : List Matcher) (include_bots : Bool)
    (t : ℚ) (commits : List OCommit) : OwnState :=
  commits.foldl (own_step health_rx excl_rx include_bots t) ownInit

/-- Source `sum(all_counts)` in `summarize_counts`: the `<prefix>_commits`
column is the sum of the values of an all-author dictionary. -/
def sumVals (d : List (List Char × ℕ)) : ℕ := (d.map (fun kv => kv.2)).sum

/-! ### Month skeleton and the entropy-tool main loop
(`doc_entropy.py`) -/

/-- Source `iter_month_keys(since, until)`: the inclusive month sequence from
`(sy, sm)` to `(ey, em)`.  Month keys are embedded as `(year, month)`
pairs; the source formats them as `"%04d-%02d"` strings, which is
injective on year-month pairs.  For a start month index outside `1..12`
(on which the source's `while` loop would not terminate, and which
cannot arise from a parsed date) the embedding cuts the loop off when
the fuel runs out. -/
def iter_month_keys_go : ℕ → ℕ → ℕ → ℕ → ℕ → List (ℕ × ℕ)
  | 0, _, _, _, _ => []
  | fuel + 1, y, m, ey, em =>
      if y < ey ∨ (y = ey ∧ m ≤ em) then
        (y, m) :: (if m = 12 then iter_month_keys_go fuel (y + 1) 1 ey em
                   else iter_month_keys_go fuel y (m + 1) ey em)
      else []

/-- Source `iter_month_keys(since, until)` (see above): expressed with an
explicit fuel bound on the number of remaining loop iterations, which is
sufficient for every calendar month index `1 ≤ m ≤ 12`. -/
def iter_month_keys (y m ey em : ℕ) : List (ℕ × ℕ) :=
  iter_month_keys_go ((ey * 12 + em + 13) - (y * 12 + m)) y m ey em

/-- A commit record as consumed by the entropy tool: hash, committer
year and month (from the committer timestamp), changed files. -/
structure ECommit : Type where
  sha : List Char
  year : ℕ
  month : ℕ
  files : List (List Char)

/-- The loop state of `doc_entropy.main`: total commits, health-doc
touch count, the SHA list, and the per-month counters (a dict whose key
set is the month skeleton; embedded as a total function that is only
read on skeleton months). -/
structure EState : Type where
  total : ℕ
  touch : ℕ
  shas : List (List Char)
  counts : ℕ × ℕ → ℕ

/-- One iteration of the `doc_entropy.main` loop: every commit counts
toward `total`; a health-doc-touching commit increments `touch` and is
appended to the SHA list; its month bucket is incremented only when its
month key is in the skeleton (`if mk in month_counts`). -/
def entropy_step (health_rx excl_rx : List Matcher)
    (months : List (ℕ × ℕ)) (st : EState) (c : ECommit) : EState :=
  let st := { st with total := st.total + 1 }
  if get_health_files c.files health_rx excl_rx = [] then st
  else
    { st with
      touch := st.touch + 1
      shas := st.shas ++ [c.sha]
      counts :=
        if (c.year, c.month) ∈ months then
          fun mk => if mk = (c.year, c.month) then st.counts mk + 1
                    else st.counts mk
        else st.counts }

/-- The `doc_entropy.main` loop over a commit sequence. -/
def entropy_run (health_rx excl_rx : List Matcher)
    (months : List (ℕ × ℕ)) (commits : List ECommit) : EState :=
  commits.foldl (entropy_step health_rx excl_rx months)
    ⟨0, 0, [], fun _ => 0⟩

/-- Source `counts_list = [month_counts[m] for m in months]`. -/
def countsList (st : EState) (months : List (ℕ × ℕ)) : List ℕ :=
  months.map st.counts

/-! ### Entropy and concentration statistics (`doc_entropy.py`) -/

/-- Source `entropy_norm(counts)`: `None` when the total is not positive, `0.0`
when there are at most one month, otherwise the normalised Shannon
entropy clamped to `[0, 1]`.  `math.log` is embedded as `Real.log`. -/
noncomputable def entropy_norm (counts : List ℕ) : Option ℝ :=
  let total := counts.sum
  if total ≤ 0 then none
  else if counts.length ≤ 1 then some 0
  else
    let H : ℝ := (counts.map (fun c : ℕ =>
      if c ≤ 0 then (0 : ℝ)
      else -(((c : ℝ) / (total : ℝ)) * Real.log ((c : ℝ) / (total : ℝ))))).sum
    some (max 0 (min 1 (H / Real.log (counts.length : ℝ))))

/-- The weighted sum `sum(i * x_i for i, x_i in enumerate(xs, start=k))`
computed by both gini implementations. -/
def wsumFrom (k : ℚ) : List ℚ → ℚ
  | [] => 0
  | x :: xs => k * x + wsumFrom (k + 1) xs

/-- Source `contrib_concentration.gini(values)`: drop negative values, return
`0.0` for fewer than two values or zero total, otherwise the sorted
Gini formula clamped to `[0, 1]`. -/
def gini (values : List ℤ) : ℚ :=
  if values = [] then 0
  else
    let vals := values.filter (fun v => 0 ≤ v)
    let n := vals.length
    let total := vals.sum
    if n < 2 ∨ total = 0 then 0
    else
      let sorted := vals.mergeSort
      let g : ℚ := 2 * wsumFrom 1 (sorted.map (fun v : ℤ => (v : ℚ))) /
        ((n : ℚ) * (total : ℚ)) - ((n : ℚ) + 1) / (n : ℚ)
      max 0 (min 1 g)

/-- Source `doc_entropy.gini_from_counts(counts)`: `None` for non-positive
total or an empty list, otherwise the same sorted Gini formula,
unclamped. -/
def gini_from_counts (counts : List ℤ) : Option ℚ :=
  let total := counts.sum
  if total ≤ 0 then none
  else
    let xs := counts.mergeSort
    let n := xs.length
    if n = 0 then none
    else
      some (2 * wsumFrom 1 (xs.map (fun v : ℤ => (v : ℚ))) /
        ((n : ℚ) * (total : ℚ)) - ((n : ℚ) + 1) / (n : ℚ))

/-! ### Rhythm metrics (`rhythm.py`) -/

/-- The `RhythmMetrics` record (field order as in the source
dataclass). -/
structure RhythmMetrics : Type where
  granularity : String
  window_count : ℕ
  health_file_commits : ℕ
  mu : ℚ
  sigma : ℚ
  cv : Option ℚ
  active_window_rate : ℚ
  phi_c : ℚ
  label : String
  deriving DecidableEq, Repr

/-- Source `mean(xs)`. -/
def mean (xs : List ℚ) : ℚ :=
  if xs = [] then 0 else xs.sum / (xs.length : ℚ)

/-- Source `stdev_sample(xs)`: the sample standard deviation.  `math.sqrt` is a
float-library primitive and is passed in as `sqrtFn`; the claims below
need only its value at `0`. -/
def stdev_sample (sqrtFn : ℚ → ℚ) (xs : List ℚ) : ℚ :=
  if xs.length < 2 then 0
  else
    sqrtFn ((xs.map (fun x => (x - mean xs) ^ 2)).sum / ((xs.length : ℚ) - 1))

/-- Source `calculate_phi_c(cv)`: the triangular stability score with target
`0.25` and tolerance `0.25`, zero outside `[0, 0.50]` and for an
undefined CV. -/
def calculate_phi_c (cv : Option ℚ) : ℚ :=
  match cv with
  | none => 0
  | some v =>
      if 0 ≤ v ∧ v ≤ 0.50 then max 0 (1 - |v - 0.25| / 0.25)
      else 0

/-- Source `compute_metrics(counts_by_window, windows, cv_threshold, min_total,
min_active, granularity)`.  The counts dictionary is embedded as a
total function (`counts_by_window.get(w, 0)` semantics); `int(sum(counts))`
is exact because the counts are integers. -/
def compute_metrics {κ : Type} (sqrtFn : ℚ → ℚ)
    (counts_by_window : κ → ℕ) (windows : List κ) (cv_threshold : ℚ)
    (min_total min_active : ℕ) (granularity : String) : RhythmMetrics :=
  let counts : List ℚ := windows.map (fun w => (counts_by_window w : ℚ))
  let total : ℕ := (windows.map counts_by_window).sum
  let nwin := windows.length
  let mu := mean counts
  let sigma := stdev_sample sqrtFn counts
  let active := counts.countP (fun c => decide (0 < c))
  let active_rate : ℚ := if nwin ≠ 0 then (active : ℚ) / (nwin : ℚ) else 0
  if mu = 0 then ⟨granularity, nwin, 0, 0, 0, none, 0, 0, "inactive"⟩
  else
    let cv : Option ℚ := if 0 < mu then some (sigma / mu) else none
    let phi_c := calculate_phi_c cv
    if total < min_total ∨ active < min_active then
      ⟨granularity, nwin, total, mu, sigma, cv, active_rate, phi_c, "sparse"⟩
    else
      let label := if (match cv with
                       | some v => decide (v ≤ cv_threshold)
                       | none => false) then "stable" else "unstable"
      ⟨granularity, nwin, total, mu, sigma, cv, active_rate, phi_c, label⟩

/-! ## Helper lemmas -/

theorem classify_commit_none_iff (health_rx excl_rx : List Matcher) (t : ℚ)
    (files : List (List Char)) :
    classify_commit health_rx excl_rx t files = none ↔
      get_health_files files health_rx excl_rx = [] := by
  constructor
  · intro h
    by_contra hh
    unfold classify_commit at h
    rw [if_neg hh] at h
    dsimp only at h
    split at h
    · exact Option.noConfusion h
    · split at h
      · exact Option.noConfusion h
      · exact Option.noConfusion h
  · intro h
    unfold classify_commit
    rw [if_pos h]

theorem intention_step_touch (health_rx excl_rx : List Matcher) (t : ℚ)
    (st : IntentionCounts) (fs : List (List Char)) :
    (intention_step health_rx excl_rx t st fs).touch =
      st.touch + (if get_health_files fs health_rx excl_rx = [] then 0 else 1) := by
  unfold intention_step
  rcases hc : classify_commit health_rx excl_rx t fs with _ | cat
  · rw [(classify_commit_none_iff health_rx excl_rx t fs).mp hc]
    simp
  · have : ¬ get_health_files fs health_rx excl_rx = [] := by
      intro h
      rw [← classify_commit_none_iff health_rx excl_rx t fs] at h
      rw [hc] at h
      exact Option.noConfusion h
    cases cat <;> simp [this]

theorem intention_step_parts (health_rx excl_rx : List Matcher) (t : ℚ)
    (st : IntentionCounts) (fs : List (List Char)) :
    (intention_step health_rx excl_rx t st fs).only
      + (intention_step health_rx excl_rx t st fs).dominant
      + (intention_step health_rx excl_rx t st fs).nonDominant =
      st.only + st.dominant + st.nonDominant
        + (if get_health_files fs health_rx excl_rx = [] then 0 else 1) := by
  unfold intention_step
  rcases hc : classify_commit health_rx excl_rx t fs with _ | cat
  · rw [(classify_commit_none_iff health_rx excl_rx t fs).mp hc]
    simp
  · have : ¬ get_health_files fs health_rx excl_rx = [] := by
      intro h
      rw [← classify_commit_none_iff health_rx excl_rx t fs] at h
      rw [hc] at h
      exact Option.noConfusion h
    cases cat <;> simp [this] <;> omega

theorem intention_foldl (health_rx excl_rx : List Matcher) (t : ℚ)
    (commits : List (List (List Char))) : ∀ st : IntentionCounts,
    (commits.foldl (intention_step health_rx excl_rx t) st).touch =
        st.touch + commits.countP
          (fun fs => !(get_health_files fs health_rx excl_rx).isEmpty)
    ∧ (commits.foldl (intention_step health_rx excl_rx t) st).only
        + (commits.foldl (intention_step health_rx excl_rx t) st).dominant
        + (commits.foldl (intention_step health_rx excl_rx t) st).nonDominant =
      st.only + st.dominant + st.nonDominant
        + commits.countP
            (fun fs => !(get_health_files fs health_rx excl_rx).isEmpty) := by
  induction commits with
  | nil => intro st; simp
  | cons fs rest ih =>
      intro st
      rw [List.foldl_cons]
      rcases ih (intention_step health_rx excl_rx t st fs) with ⟨h1, h2⟩
      rw [List.countP_cons]
      constructor
      · rw [h1, intention_step_touch]
        by_cases hh : get_health_files fs health_rx excl_rx = [] <;>
          simp [hh] <;> omega
      · rw [h2, intention_step_parts]
        by_cases hh : get_health_files fs health_rx excl_rx = [] <;>
          simp [hh] <;> omega

theorem get_health_files_not_excluded (health_rx excl_rx : List Matcher)
    (files : List (List Char)) (p : List Char)
    (hp : p ∈ get_health_files files health_rx excl_rx) :
    is_excluded p excl_rx = false := by
  induction files with
  | nil => simp [get_health_files] at hp
  | cons f fs ih =>
      rw [get_health_files] at hp
      by_cases he : is_excluded f excl_rx
      · rw [if_pos he] at hp
        exact ih hp
      · rw [if_neg he] at hp
        by_cases hh : is_health_file f health_rx
        · rw [if_pos hh] at hp
          rcases List.mem_cons.mp hp with h | h
          · subst h; exact Bool.eq_false_iff.mpr he
          · exact ih h
        · rw [if_neg hh] at hp
          exact ih hp

theorem own_step_all (health_rx excl_rx : List Matcher) (b : Bool) (t : ℚ)
    (st : OwnState) (c : OCommit) :
    (own_step health_rx excl_rx b t st c).all =
      match classify_commit health_rx excl_rx t c.files with
      | none => st.all
      | some cat => bumpCat st.all cat (author_id c.name c.email) := by
  unfold own_step
  rcases classify_commit health_rx excl_rx t c.files with _ | cat <;> simp

theorem own_step_total (health_rx excl_rx : List Matcher) (b : Bool) (t : ℚ)
    (st : OwnState) (c : OCommit) :
    (own_step health_rx excl_rx b t st c).total = st.total + 1 := by
  unfold own_step
  rcases classify_commit health_rx excl_rx t c.files with _ | cat <;> simp

theorem own_foldl_all_congr (health_rx excl_rx : List Matcher) (t : ℚ)
    (commits : List OCommit) : ∀ (b₁ b₂ : Bool) (st₁ st₂ : OwnState),
    st₁.all = st₂.all → st₁.total = st₂.total →
    (commits.foldl (own_step health_rx excl_rx b₁ t) st₁).all =
        (commits.foldl (own_step health_rx excl_rx b₂ t) st₂).all
    ∧ (commits.foldl (own_step health_rx excl_rx b₁ t) st₁).total =
        (commits.foldl (own_step health_rx excl_rx b₂ t) st₂).total := by
  induction commits with
  | nil => intro b₁ b₂ st₁ st₂ h1 h2; exact ⟨h1, h2⟩
  | cons c rest ih =>
      intro b₁ b₂ st₁ st₂ h1 h2
      rw [List.foldl_cons, List.foldl_cons]
      refine ih b₁ b₂ _ _ ?_ ?_
      · rw [own_step_all, own_step_all, h1]
      · rw [own_step_total, own_step_total, h2]

theorem iter_month_keys_go_bound : ∀ (fuel y m ey em : ℕ),
    ∀ p ∈ iter_month_keys_go fuel y m ey em,
      y * 12 + m ≤ p.1 * 12 + p.2 := by
  intro fuel
  induction fuel with
  | zero => intro y m ey em p hp; exact absurd hp (List.not_mem_nil p)
  | succ fuel ih =>
      intro y m ey em p hp
      rw [iter_month_keys_go] at hp
      split at hp
      · rcases List.mem_cons.mp hp with h | h
        · subst h; exact Nat.le_refl _
        · split at h
          · have := ih (y + 1) 1 ey em p h
            omega
          · have := ih y (m + 1) ey em p h
            omega
      · exact absurd hp (List.not_mem_nil p)

theorem iter_month_keys_go_nodup : ∀ (fuel y m ey em : ℕ),
    (iter_month_keys_go fuel y m ey em).Nodup := by
  intro fuel
  induction fuel with
  | zero => intro y m ey em; exact List.nodup_nil
  | succ fuel ih =>
      intro y m ey em
      rw [iter_month_keys_go]
      split
      · refine List.nodup_cons.mpr ⟨?_, ?_⟩
        · intro hmem
          by_cases h12 : m = 12
          · rw [if_pos h12] at hmem
            have hb := iter_month_keys_go_bound fuel (y + 1) 1 ey em (y, m) hmem
            dsimp only at hb
            omega
          · rw [if_neg h12] at hmem
            have hb := iter_month_keys_go_bound fuel y (m + 1) ey em (y, m) hmem
            dsimp only at hb
            omega
        · split
          · exact ih (y + 1) 1 ey em
          · exact ih y (m + 1) ey em
      · exact List.nodup_nil

theorem iter_month_keys_nodup (y m ey em : ℕ) :
    (iter_month_keys y m ey em).Nodup :=
  iter_month_keys_go_nodup _ y m ey em

theorem map_bump_sum (months : List (ℕ × ℕ)) (f : ℕ × ℕ → ℕ) (mk : ℕ × ℕ)
    (hnd : months.Nodup) (hmem : mk ∈ months) :
    (months.map (fun k => if k = mk then f k + 1 else f k)).sum
      = (months.map f).sum + 1 := by
  induction months with
  | nil => exact absurd hmem (List.not_mem_nil mk)
  | cons a as ih =>
      rcases List.nodup_cons.mp hnd with ⟨ha, hnd'⟩
      rcases List.mem_cons.mp hmem with h | h
      · have htail : as.map (fun k => if k = mk then f k + 1 else f k)
            = as.map f := by
          apply List.map_congr_left
          intro k hk
          have hkne : k ≠ mk := by
            intro he
            rw [he, h] at hk
            exact ha hk
          rw [if_neg hkne]
        simp only [List.map_cons, List.sum_cons, htail]
        rw [if_pos h.symm]
        omega
      · have hne : a ≠ mk := by
          intro he
          rw [← he] at h
          exact ha h
        simp only [List.map_cons, List.sum_cons, if_neg hne]
        rw [ih hnd' h]
        omega

theorem entropy_step_touch (health_rx excl_rx : List Matcher)
    (months : List (ℕ × ℕ)) (st : EState) (c : ECommit) :
    (entropy_step health_rx excl_rx months st c).touch
      = st.touch
        + (if get_health_files c.files health_rx excl_rx = [] then 0 else 1) := by
  unfold entropy_step
  by_cases hc : get_health_files c.files health_rx excl_rx = [] <;> simp [hc]

theorem entropy_step_shas (health_rx excl_rx : List Matcher)
    (months : List (ℕ × ℕ)) (st : EState) (c : ECommit) :
    (entropy_step health_rx excl_rx months st c).shas
      = st.shas
        ++ (if get_health_files c.files health_rx excl_rx = [] then []
            else [c.sha]) := by
  unfold entropy_step
  by_cases hc : get_health_files c.files health_rx excl_rx = [] <;> simp [hc]

theorem entropy_step_counts_sum (health_rx excl_rx : List Matcher)
    (months : List (ℕ × ℕ)) (hnd : months.Nodup) (st : EState) (c : ECommit) :
    (months.map (entropy_step health_rx excl_rx months st c).counts).sum
      ≤ (months.map st.counts).sum
        + (if get_health_files c.files health_rx excl_rx = [] then 0 else 1) := by
  unfold entropy_step
  by_cases hc : get_health_files c.files health_rx excl_rx = []
  · simp [hc]
  · rw [if_neg hc]
    dsimp only
    rw [if_neg hc]
    by_cases hmem : (c.year, c.month) ∈ months
    · rw [if_pos hmem,
        map_bump_sum months st.counts (c.year, c.month) hnd hmem]
    · rw [if_neg hmem]
      omega

theorem entropy_run_inv (health_rx excl_rx : List Matcher)
    (months : List (ℕ × ℕ)) (hnd : months.Nodup)
    (commits : List ECommit) : ∀ st : EState,
    (months.map
        (commits.foldl (entropy_step health_rx excl_rx months) st).counts).sum
      ≤ (months.map st.counts).sum + commits.countP
          (fun c => !(get_health_files c.files health_rx excl_rx).isEmpty)
    ∧ (commits.foldl (entropy_step health_rx excl_rx months) st).touch
      = st.touch + commits.countP
          (fun c => !(get_health_files c.files health_rx excl_rx).isEmpty)
    ∧ (commits.foldl (entropy_step health_rx excl_rx months) st).shas.length
      = st.shas.length + commits.countP
          (fun c => !(get_health_files c.files health_rx excl_rx).isEmpty) := by
  induction commits with
  | nil => intro st; simp
  | cons c cs ih =>
      intro st
      rw [List.foldl_cons, List.countP_cons]
      rcases ih (entropy_step health_rx excl_rx months st c) with ⟨h1, h2, h3⟩
      have hs1 := entropy_step_counts_sum health_rx excl_rx months hnd st c
      have hs2 := entropy_step_touch health_rx excl_rx months st c
      have hs3 := entropy_step_shas health_rx excl_rx months st c
      have hiff : ((!(get_health_files c.files health_rx excl_rx).isEmpty)
            = true)
          ↔ ¬ get_health_files c.files health_rx excl_rx = [] := by
        rcases hl : get_health_files c.files health_rx excl_rx with _ | ⟨a, as⟩
        · simp
        · simp
      refine ⟨?_, ?_, ?_⟩
      · by_cases hc : get_health_files c.files health_rx excl_rx = [] <;>
          [rw [if_neg (by rw [hiff]; exact fun h => h hc)];
           rw [if_pos (hiff.mpr hc)]] <;>
          [rw [if_pos hc] at hs1; rw [if_neg hc] at hs1] <;> omega
      · rw [h2, hs2]
        by_cases hc : get_health_files c.files health_rx excl_rx = [] <;>
          [rw [if_pos hc, if_neg (by rw [hiff]; exact fun h => h hc)];
           rw [if_neg hc, if_pos (hiff.mpr hc)]] <;> omega
      · rw [h3, hs3, List.length_append]
        by_cases hc : get_health_files c.files health_rx excl_rx = [] <;>
          [rw [if_pos hc, if_neg (by rw [hiff]; exact fun h => h hc)];
           rw [if_neg hc, if_pos (hiff.mpr hc)]] <;> simp <;> omega

theorem wsumFrom_shift (xs : List ℚ) : ∀ k : ℚ,
    wsumFrom (k + 1) xs = wsumFrom k xs + xs.sum := by
  induction xs with
  | nil => intro k; simp [wsumFrom]
  | cons x t ih =>
      intro k
      show (k + 1) * x + wsumFrom (k + 1 + 1) t
        = (k * x + wsumFrom (k + 1) t) + (x + t.sum)
      rw [ih (k + 1)]
      ring

theorem wsum_le (xs : List ℚ) : ∀ k : ℚ, (∀ x ∈ xs, 0 ≤ x) →
    wsumFrom k xs ≤ (k + (xs.length : ℚ) - 1) * xs.sum := by
  induction xs with
  | nil => intro k _; simp [wsumFrom]
  | cons x t ih =>
      intro k h
      have hx : 0 ≤ x := h x (List.mem_cons_self x t)
      have ht : ∀ y ∈ t, 0 ≤ y := fun y hy => h y (List.mem_cons_of_mem x hy)
      have hts : (0 : ℚ) ≤ t.sum := List.sum_nonneg ht
      have hlen : (0 : ℚ) ≤ (t.length : ℚ) := by positivity
      have iht := ih (k + 1) ht
      show k * x + wsumFrom (k + 1) t ≤ _
      rw [List.length_cons, List.sum_cons]
      push_cast
      nlinarith [iht, hx, hts, hlen]

theorem sum_ge_len_mul (x : ℚ) : ∀ t : List ℚ, (∀ y ∈ t, x ≤ y) →
    (t.length : ℚ) * x ≤ t.sum := by
  intro t
  induction t with
  | nil => intro _; simp
  | cons y ys ih =>
      intro h
      have hy := h y (List.mem_cons_self y ys)
      have hys := ih (fun z hz => h z (List.mem_cons_of_mem y hz))
      rw [List.length_cons, List.sum_cons]
      push_cast
      nlinarith [hy, hys]

theorem wsum_sorted_lower : ∀ xs : List ℚ, List.Sorted (· ≤ ·) xs →
    ((xs.length : ℚ) + 1) * xs.sum ≤ 2 * wsumFrom 1 xs := by
  intro xs
  induction xs with
  | nil => intro _; simp [wsumFrom]
  | cons x t ih =>
      intro h
      rcases List.sorted_cons.mp h with ⟨hx, ht⟩
      have iht := ih ht
      have hmx : (t.length : ℚ) * x ≤ t.sum := sum_ge_len_mul x t hx
      show (((x :: t).length : ℚ) + 1) * (x :: t).sum
        ≤ 2 * (1 * x + wsumFrom (1 + 1) t)
      rw [List.length_cons, List.sum_cons, wsumFrom_shift]
      push_cast
      nlinarith [iht, hmx]

theorem gini_formula_bounds (s : List ℚ) (hs : List.Sorted (· ≤ ·) s)
    (hnn : ∀ x ∈ s, 0 ≤ x) (hpos : 0 < s.sum) (hlen : 1 ≤ s.length) :
    0 ≤ 2 * wsumFrom 1 s / ((s.length : ℚ) * s.sum)
        - ((s.length : ℚ) + 1) / (s.length : ℚ)
    ∧ 2 * wsumFrom 1 s / ((s.length : ℚ) * s.sum)
        - ((s.length : ℚ) + 1) / (s.length : ℚ) ≤ 1 := by
  have hn : (1 : ℚ) ≤ (s.length : ℚ) := by exact_mod_cast hlen
  have hn0 : (0 : ℚ) < (s.length : ℚ) := by linarith
  have hlow : ((s.length : ℚ) + 1) * s.sum ≤ 2 * wsumFrom 1 s :=
    wsum_sorted_lower s hs
  have hup : wsumFrom 1 s ≤ (1 + (s.length : ℚ) - 1) * s.sum := wsum_le s 1 hnn
  constructor
  · have h1 : ((s.length : ℚ) + 1) / (s.length : ℚ)
        ≤ 2 * wsumFrom 1 s / ((s.length : ℚ) * s.sum) := by
      rw [div_le_div_iff hn0 (by positivity)]
      nlinarith [mul_le_mul_of_nonneg_left hlow (le_of_lt hn0)]
    linarith
  · have h2 : 2 * wsumFrom 1 s / ((s.length : ℚ) * s.sum) ≤ 2 := by
      rw [div_le_iff (by positivity)]
      nlinarith [hup]
    have h3 : (1 : ℚ) ≤ ((s.length : ℚ) + 1) / (s.length : ℚ) := by
      rw [le_div_iff hn0]
      linarith
    linarith

theorem fullmatch_alt (s : List Char) : ∀ a b : RE,
    fullmatch (.alt a b) s = (fullmatch a s || fullmatch b s) := by
  induction s with
  | nil => intro a b; rfl
  | cons c cs ih =>
      intro a b
      show fullmatch (.alt (deriv a c) (deriv b c)) cs = _
      exact ih (deriv a c) (deriv b c)

theorem fullmatch_seq_emp (s : List Char) : ∀ r : RE,
    fullmatch (.seq .emp r) s = false := by
  induction s with
  | nil => intro r; rfl
  | cons c cs ih =>
      intro r
      show fullmatch (.seq (deriv .emp c) r) cs = false
      exact ih r

theorem fullmatch_seq_eps (s : List Char) : ∀ r : RE,
    fullmatch (.seq .eps r) s = fullmatch r s := by
  induction s with
  | nil =>
      intro r
      show (true && nullable r) = nullable r
      exact Bool.true_and _
  | cons c cs ih =>
      intro r
      show fullmatch (.alt (.seq (deriv .eps c) r) (deriv r c)) cs = _
      rw [fullmatch_alt]
      show (fullmatch (.seq .emp r) cs || _) = _
      rw [fullmatch_seq_emp]
      exact Bool.false_or _

theorem fullmatch_litR_self : ∀ w : List Char, fullmatch (litR w) w = true := by
  intro w
  induction w with
  | nil => rfl
  | cons c cs ih =>
      show fullmatch (deriv (.seq (.chr c) (litR cs)) c) cs = true
      show fullmatch (.seq (deriv (.chr c) c) (litR cs)) cs = true
      rw [show deriv (.chr c) c = .eps from if_pos rfl, fullmatch_seq_eps]
      exact ih

theorem matchPref_of_fullmatch : ∀ (w : List Char) (r : RE) (t : List Char),
    fullmatch r w = true → matchPref r (w ++ t) = true := by
  intro w
  induction w with
  | nil =>
      intro r t h
      have hn : nullable r = true := h
      cases t with
      | nil => exact hn
      | cons d ds =>
          show (nullable r || _) = true
          rw [hn]; rfl
  | cons c cs ih =>
      intro r t h
      show (nullable r || matchPref (deriv r c) (cs ++ t)) = true
      rw [ih (deriv r c) t h]
      exact Bool.or_true _

theorem searchRE_of_matchPref : ∀ (u : List Char) (r : RE) (s : List Char),
    matchPref r s = true → searchRE r (u ++ s) = true := by
  intro u
  induction u with
  | nil =>
      intro r s h
      cases s with
      | nil => exact h
      | cons c cs =>
          show (matchPref r (c :: cs) || _) = true
          rw [h]; rfl
  | cons d ds ih =>
      intro r s h
      show (matchPref r (d :: (ds ++ s)) || searchRE r (ds ++ s)) = true
      rw [ih r s h]
      exact Bool.or_true _

theorem searchRE_litR_of_infix (w s : List Char) (h : w <:+: s) :
    searchRE (litR w) s = true := by
  rcases h with ⟨u, t, rfl⟩
  rw [List.append_assoc]
  exact searchRE_of_matchPref u (litR w) (w ++ t)
    (matchPref_of_fullmatch w (litR w) t (fullmatch_litR_self w))

/-! ## Claim theorems -/

/-- Claim C1 (confirmed): for every commit set and every dominance
threshold, the number of commits classified doc-only plus doc-dominant
plus doc-non-dominant equals the number of commits that touch at least
one health-doc file — the classification partitions the doc-touch
commits. -/
theorem C1_partition (health_rx excl_rx : List Matcher) (t : ℚ)
    (commits : List (List (List Char))) :
    (intention_run health_rx excl_rx t commits).only
      + (intention_run health_rx excl_rx t commits).dominant
      + (intention_run health_rx excl_rx t commits).nonDominant
      = (intention_run health_rx excl_rx t commits).touch
    ∧ (intention_run health_rx excl_rx t commits).touch
      = commits.countP
          (fun fs => !(get_health_files fs health_rx excl_rx).isEmpty) := by
  rcases intention_foldl health_rx excl_rx t commits ⟨0, 0, 0, 0⟩ with ⟨h1, h2⟩
  unfold intention_run
  constructor
  · rw [h1, h2]; simp
  · rw [h1]; simp

/-- Claim C2 (confirmed): a path that matches an exclusion pattern is
never a health doc, even when it also matches an include pattern —
exclusion is checked first and always wins. -/
theorem C2_exclusion_wins (health_rx excl_rx : List Matcher) (p : List Char)
    (hh : is_health_file p health_rx = true)
    (he : is_excluded p excl_rx = true) :
    classify_path health_rx excl_rx p = false
    ∧ ∀ files, p ∉ get_health_files files health_rx excl_rx := by
  constructor
  · unfold classify_path
    rw [if_pos he]
  · intro files hp
    rw [get_health_files_not_excluded health_rx excl_rx files p hp] at he
    exact Bool.noConfusion he

/-- Witness for C2: `README.zh.md` matches the include pattern
`^README(?:\..+)?$` and the exclusion `\.(zh|...)\.md$`, and is
classified as not a health doc. -/
theorem C2_exclusion_wins_witness :
    is_health_file "README.zh.md".data ROOT_HEALTH_FILES = true
    ∧ is_excluded "README.zh.md".data EXCLUDE_PATTERNS = true
    ∧ classify_path ROOT_HEALTH_FILES EXCLUDE_PATTERNS "README.zh.md".data
        = false :=
  ⟨by decide, by decide,
    (C2_exclusion_wins ROOT_HEALTH_FILES EXCLUDE_PATTERNS "README.zh.md".data
      (by decide) (by decide)).1⟩

/-- Counterexample for C3: no rename collapsing happens.  The path
`foo => README.md` is classified on the literal string and is not a
health doc, while `README.md` alone is one — contradicting the claim
that a path of the form `old => new` classifies the same as `new`. -/
theorem C3_counterexample :
    classify_path ROOT_HEALTH_FILES EXCLUDE_PATTERNS "foo => README.md".data
        = false
    ∧ classify_path ROOT_HEALTH_FILES EXCLUDE_PATTERNS "README.md".data
        = true := by
  decide

/-- Claim C3 (corrected): the only path normalisation performed before
classification is replacing backslashes by forward slashes (with
case-insensitive matching); classifying an already-normalised path gives
the same result.  Rename-syntax fragments `a => b` are not collapsed. -/
theorem C3_amended (health_rx excl_rx : List Matcher) (p : List Char) :
    classify_path health_rx excl_rx (normSlash p)
      = classify_path health_rx excl_rx p := by
  have hns : normSlash (normSlash p) = normSlash p := by
    unfold normSlash
    rw [List.map_map]
    apply List.map_congr_left
    intro c _
    by_cases hc : c = '\\' <;> simp [hc]
  unfold classify_path is_excluded is_health_file
  rw [hns]

/-- Claim C7 (confirmed): the bot toggle never changes commit
classification or commit counts.  The all-author counters (whose value
sums are the `*_commits` columns) and the total commit count are
identical whether bots are included in or excluded from attribution;
the per-commit category is computed by `classify_commit`, which does not
read the bot flag at all. -/
theorem C7_bot_invariance (health_rx excl_rx : List Matcher) (t : ℚ)
    (commits : List OCommit) (b₁ b₂ : Bool) :
    (own_run health_rx excl_rx b₁ t commits).all
        = (own_run health_rx excl_rx b₂ t commits).all
    ∧ (own_run health_rx excl_rx b₁ t commits).total
        = (own_run health_rx excl_rx b₂ t commits).total
    ∧ sumVals (own_run health_rx excl_rx b₁ t commits).all.touch
        = sumVals (own_run health_rx excl_rx b₂ t commits).all.touch
    ∧ sumVals (own_run health_rx excl_rx b₁ t commits).all.only
        = sumVals (own_run health_rx excl_rx b₂ t commits).all.only
    ∧ sumVals (own_run health_rx excl_rx b₁ t commits).all.dominant
        = sumVals (own_run health_rx excl_rx b₂ t commits).all.dominant
    ∧ sumVals (own_run health_rx excl_rx b₁ t commits).all.nonDominant
        = sumVals (own_run health_rx excl_rx b₂ t commits).all.nonDominant := by
  rcases own_foldl_all_congr health_rx excl_rx t commits b₁ b₂ ownInit ownInit
      rfl rfl with ⟨h1, h2⟩
  unfold own_run
  rw [h1, h2]
  exact ⟨rfl, rfl, rfl, rfl, rfl, rfl⟩

/-- Claim C10 (confirmed): whenever the combined author string contains
`github.com` or `noreply@` case-insensitively, `looks_like_bot` returns
`true` (both in the ownership tool and in the concentration tool, whose
combined strings differ only in decoration); and under the ownership
tool's default configuration (`include_bots = false`) such a commit
leaves every attribution counter unchanged. -/
theorem C10_noreply_is_bot (name email : List Char) :
    (("github.com".data <:+: lowerStr (botSubject name email)
        ∨ "noreply@".data <:+: lowerStr (botSubject name email)) →
      looks_like_bot name email = true)
    ∧ (("github.com".data <:+: lowerStr (ccBotSubject name email)
        ∨ "noreply@".data <:+: lowerStr (ccBotSubject name email)) →
      (cc_looks_like_bot name email).1 = true)
    ∧ ∀ (health_rx excl_rx : List Matcher) (t : ℚ) (st : OwnState)
        (c : OCommit), looks_like_bot c.name c.email = true →
        (own_step health_rx excl_rx false t st c).attr = st.attr := by
  have hgh : mSearch (litS "github.com") ∈ BOT_RX := by simp [BOT_RX]
  have hnr : mSearch (litS "noreply@") ∈ BOT_RX := by simp [BOT_RX]
  have key : ∀ (subj : List Char),
      ("github.com".data <:+: lowerStr subj
        ∨ "noreply@".data <:+: lowerStr subj) →
      ∃ rx ∈ BOT_RX, rx subj = true := by
    intro subj h
    rcases h with h | h
    · exact ⟨mSearch (litS "github.com"), hgh,
        searchRE_litR_of_infix "github.com".data (lowerStr subj) h⟩
    · exact ⟨mSearch (litS "noreply@"), hnr,
        searchRE_litR_of_infix "noreply@".data (lowerStr subj) h⟩
  refine ⟨?_, ?_, ?_⟩
  · intro h
    exact List.any_eq_true.mpr (key (botSubject name email) h)
  · intro h
    rcases key (ccBotSubject name email) h with ⟨rx, hmem, hrx⟩
    have hne : BOT_RX.filter (fun rx => rx (ccBotSubject name email)) ≠ [] :=
      List.ne_nil_of_mem (List.mem_filter.mpr ⟨hmem, hrx⟩)
    unfold cc_looks_like_bot
    rcases hl : BOT_RX.filter (fun rx => rx (ccBotSubject name email)) with
      _ | ⟨a, as⟩
    · exact absurd hl hne
    · rw [hl]
      rfl
  · intro health_rx excl_rx t st c hbot
    unfold own_step
    rcases classify_commit health_rx excl_rx t c.files with _ | cat <;>
      simp [hbot]

/-- Witness for C10: a GitHub no-reply contributor is detected as a bot
by both tools, and with the default flags their commit leaves the
ownership attribution counters unchanged. -/
theorem C10_noreply_is_bot_witness :
    looks_like_bot "Alice".data "alice@users.noreply.github.com".data = true
    ∧ (cc_looks_like_bot "Alice".data
        "alice@users.noreply.github.com".data).1 = true
    ∧ (own_step ROOT_HEALTH_FILES EXCLUDE_PATTERNS false (1/2) ownInit
        ⟨"Alice".data, "alice@users.noreply.github.com".data,
          ["README.md".data]⟩).attr = ownInit.attr :=
  ⟨(C10_noreply_is_bot "Alice".data
      "alice@users.noreply.github.com".data).1 (Or.inl (by decide)),
   (C10_noreply_is_bot "Alice".data
      "alice@users.noreply.github.com".data).2.1 (Or.inl (by decide)),
   (C10_noreply_is_bot "Alice".data
      "alice@users.noreply.github.com".data).2.2 ROOT_HEALTH_FILES
      EXCLUDE_PATTERNS (1/2) ownInit _ (by decide)⟩

/-- Claim C4 (confirmed): for 12 windows with one commit each and the
default configuration (cv_threshold 0.5, min_total_commits 5,
min_active_windows 3), the rhythm metrics are mu = 1, sigma = 0, CV = 0,
phi_c = 0, active-window rate 1, and the label is `stable` — the label
and phi_c are independent signals, and CV = 0 yields phi_c = 0 yet a
stable label.  `sqrtFn` stands for `math.sqrt`; only `sqrtFn 0 = 0` is
used. -/
theorem C4_rhythm_scenario (sqrtFn : ℚ → ℚ) (hsqrt : sqrtFn 0 = 0) :
    compute_metrics sqrtFn (fun _ : ℕ => 1) (List.range 12) 0.5 5 3 "month"
      = ⟨"month", 12, 12, 1, 0, some 0, 1, 0, "stable"⟩ := by
  have hmean : mean (List.replicate 12 (1 : ℚ)) = 1 := by
    unfold mean
    rw [if_neg (by simp), List.sum_replicate]
    norm_num
  have hvar : ((List.replicate 12 (1 : ℚ)).map
      (fun x => (x - mean (List.replicate 12 1)) ^ 2)).sum
      / (((List.replicate 12 (1 : ℚ)).length : ℚ) - 1) = 0 := by
    rw [hmean]
    norm_num
  have hstd : stdev_sample sqrtFn (List.replicate 12 (1 : ℚ)) = 0 := by
    unfold stdev_sample
    rw [if_neg (by simp), hvar, hsqrt]
  have hphi : calculate_phi_c (some (0 : ℚ)) = 0 := by
    unfold calculate_phi_c
    dsimp only
    rw [if_pos (by norm_num)]
    have habs : |(0 : ℚ) - 0.25| = 0.25 := by
      rw [abs_of_nonpos (by norm_num)]
      norm_num
    rw [habs]
    norm_num
  have hcounts : (List.range 12).map (fun w => (((fun _ : ℕ => 1) w : ℕ) : ℚ))
      = List.replicate 12 (1 : ℚ) := by simp
  have htotal : ((List.range 12).map (fun _ : ℕ => (1 : ℕ))).sum = 12 := by simp
  have hactive : (List.replicate 12 (1 : ℚ)).countP
      (fun c => decide (0 < c)) = 12 := by
    rw [List.countP_eq_length.mpr]
    · simp
    · intro a ha
      rw [List.eq_of_mem_replicate ha]
      decide
  have hlab : (decide ((0 : ℚ) ≤ 0.5)) = true := by
    rw [decide_eq_true_eq]
    norm_num
  unfold compute_metrics
  dsimp only
  rw [hcounts, htotal, hmean, hstd, hactive]
  rw [if_neg (one_ne_zero), if_pos (by norm_num : (0 : ℚ) < 1), zero_div]
  rw [if_neg (by norm_num : ¬ ((12 : ℕ) < 5 ∨ (12 : ℕ) < 3))]
  dsimp only
  rw [hlab, hphi]
  simp [List.length_range]

/-- Witness for C4: instantiating the square root by the identity
function, whose value at `0` is `0`. -/
theorem C4_rhythm_scenario_witness :
    compute_metrics (fun q : ℚ => q) (fun _ : ℕ => 1) (List.range 12)
        0.5 5 3 "month"
      = ⟨"month", 12, 12, 1, 0, some 0, 1, 0, "stable"⟩ :=
  C4_rhythm_scenario (fun q : ℚ => q) rfl

/-- Claim C9 (confirmed): in the entropy tool, a health-doc-touching
commit is always counted in `health_file_commits` and recorded in the
SHA list, but lands in a month bucket only when its committer-month key
is in the `[since, until]` skeleton.  Hence the monthly distribution
sums to at most `health_file_commits`, and the concrete run below — one
qualifying commit dated 2020-02 against a skeleton covering only
2020-01 — shows that the inequality can be strict. -/
theorem C9_bucket_leq_touch (health_rx excl_rx : List Matcher)
    (sy sm ey em : ℕ) (commits : List ECommit) :
    ((iter_month_keys sy sm ey em).map
        (entropy_run health_rx excl_rx (iter_month_keys sy sm ey em)
          commits).counts).sum
      ≤ (entropy_run health_rx excl_rx (iter_month_keys sy sm ey em)
          commits).touch
    ∧ (entropy_run health_rx excl_rx (iter_month_keys sy sm ey em)
        commits).shas.length
      = (entropy_run health_rx excl_rx (iter_month_keys sy sm ey em)
          commits).touch
    ∧ ((iter_month_keys 2020 1 2020 1).map
        (entropy_run ROOT_HEALTH_FILES EXCLUDE_PATTERNS
          (iter_month_keys 2020 1 2020 1)
          [⟨"abc".data, 2020, 2, ["README.md".data]⟩]).counts).sum = 0
    ∧ (entropy_run ROOT_HEALTH_FILES EXCLUDE_PATTERNS
        (iter_month_keys 2020 1 2020 1)
        [⟨"abc".data, 2020, 2, ["README.md".data]⟩]).touch = 1
    ∧ (entropy_run ROOT_HEALTH_FILES EXCLUDE_PATTERNS
        (iter_month_keys 2020 1 2020 1)
        [⟨"abc".data, 2020, 2, ["README.md".data]⟩]).shas
      = ["abc".data] := by
  rcases entropy_run_inv health_rx excl_rx (iter_month_keys sy sm ey em)
      (iter_month_keys_nodup sy sm ey em) commits ⟨0, 0, [], fun _ => 0⟩
    with ⟨h1, h2, h3⟩
  refine ⟨?_, ?_, by decide, by decide, by decide⟩
  · unfold entropy_run
    have hz : ((iter_month_keys sy sm ey em).map
        (fun _ : ℕ × ℕ => (0 : ℕ))).sum = 0 := by
      simp
    rw [h2]
    calc ((iter_month_keys sy sm ey em).map
            (commits.foldl
              (entropy_step health_rx excl_rx (iter_month_keys sy sm ey em))
              ⟨0, 0, [], fun _ => 0⟩).counts).sum
        ≤ ((iter_month_keys sy sm ey em).map
            (fun _ : ℕ × ℕ => (0 : ℕ))).sum + commits.countP
              (fun c => !(get_health_files c.files health_rx excl_rx).isEmpty) :=
          h1
      _ = 0 + commits.countP
              (fun c => !(get_health_files c.files health_rx excl_rx).isEmpty) := by
          rw [hz]
      _ = (0 : ℕ) + commits.countP
              (fun c => !(get_health_files c.files health_rx excl_rx).isEmpty) := rfl
  · unfold entropy_run
    rw [h2, h3]
    rfl

/-- Claim C5 (confirmed): `entropy_norm` is `None` exactly when the
total is zero and `0` when there is at most one month; for a positive
total the value lies in `[0, 1]`, is exactly `0` when all activity falls
in a single month, and is exactly `1` when the activity is spread
perfectly evenly over all `M ≥ 2` months (for `M = 1` the explicit
`M ≤ 1` rule applies and yields `0`). -/
theorem C5_entropy_norm (counts : List ℕ) :
    (counts.sum = 0 → entropy_norm counts = none)
    ∧ (0 < counts.sum → counts.length ≤ 1 → entropy_norm counts = some 0)
    ∧ (0 < counts.sum → ∃ v, entropy_norm counts = some v ∧ 0 ≤ v ∧ v ≤ 1)
    ∧ (∀ u c w, counts = u ++ c :: w → (∀ x ∈ u ++ w, x = 0) →
        0 < counts.sum → entropy_norm counts = some 0)
    ∧ (∀ k, 0 < k → 2 ≤ counts.length → (∀ x ∈ counts, x = k) →
        entropy_norm counts = some 1) := by
  refine ⟨?_, ?_, ?_, ?_, ?_⟩
  · intro h
    unfold entropy_norm
    rw [if_pos (by omega)]
  · intro hpos hlen
    unfold entropy_norm
    rw [if_neg (by omega), if_pos hlen]
  · intro hpos
    unfold entropy_norm
    rw [if_neg (by omega)]
    by_cases hlen : counts.length ≤ 1
    · rw [if_pos hlen]
      exact ⟨0, rfl, le_refl 0, zero_le_one⟩
    · rw [if_neg hlen]
      refine ⟨_, rfl, le_max_left _ _, ?_⟩
      exact max_le zero_le_one (min_le_left _ _)
  · intro u c w hsplit hzero hpos
    have hsum : counts.sum = c := by
      rw [hsplit, List.sum_append, List.sum_cons]
      have hu : u.sum = 0 :=
        List.sum_eq_zero (fun x hx => hzero x (List.mem_append_left w hx))
      have hw : w.sum = 0 :=
        List.sum_eq_zero (fun x hx => hzero x (List.mem_append_right u hx))
      rw [hu, hw]
      omega
    unfold entropy_norm
    rw [if_neg (by omega)]
    by_cases hlen : counts.length ≤ 1
    · rw [if_pos hlen]
    · rw [if_neg hlen]
      have hH : (counts.map (fun x : ℕ =>
          if x ≤ 0 then (0 : ℝ)
          else -(((x : ℝ) / (counts.sum : ℝ))
            * Real.log ((x : ℝ) / (counts.sum : ℝ))))).sum = 0 := by
        apply List.sum_eq_zero
        intro y hy
        rcases List.mem_map.mp hy with ⟨x, hx, rfl⟩
        rw [hsplit] at hx
        rcases List.mem_append.mp hx with hxu | hxc
        · rw [hzero x (List.mem_append_left w hxu)]
          rw [if_pos (le_refl 0)]
        · rcases List.mem_cons.mp hxc with hxeq | hxw
          · subst hxeq
            rw [if_neg (by omega)]
            rw [hsum]
            rw [div_self (by
              have : x ≠ 0 := by omega
              exact_mod_cast this)]
            rw [Real.log_one, mul_zero, neg_zero]
          · rw [hzero x (List.mem_append_right u hxw)]
            rw [if_pos (le_refl 0)]
      dsimp only
      rw [hH, zero_div]
      rw [min_eq_right zero_le_one, max_self]
  · intro k hk hlen hall
    have hrep : counts = List.replicate counts.length k :=
      List.eq_replicate.mpr ⟨rfl, hall⟩
    have hsum : counts.sum = counts.length * k := by
      conv_lhs => rw [hrep]
      rw [List.sum_replicate, smul_eq_mul]
    have hMpos : 0 < counts.length := by omega
    have hkR : (k : ℝ) ≠ 0 := by
      have : k ≠ 0 := by omega
      exact_mod_cast this
    have hMR : (counts.length : ℝ) ≠ 0 := by
      have : counts.length ≠ 0 := by omega
      exact_mod_cast this
    unfold entropy_norm
    rw [if_neg (by
      rw [hsum, Nat.le_zero, Nat.mul_eq_zero]
      push_neg
      exact ⟨by omega, by omega⟩)]
    rw [if_neg (by omega)]
    have hlog : Real.log (counts.length : ℝ) ≠ 0 := by
      have h1 : (1 : ℝ) < (counts.length : ℝ) := by
        exact_mod_cast (by omega : 1 < counts.length)
      exact ne_of_gt (Real.log_pos h1)
    have hterm : (if k ≤ 0 then (0 : ℝ)
        else -(((k : ℝ) / (counts.sum : ℝ))
          * Real.log ((k : ℝ) / (counts.sum : ℝ))))
        = ((counts.length : ℝ))⁻¹ * Real.log (counts.length : ℝ) := by
      rw [if_neg (by omega)]
      have hq : ((k : ℝ) / (counts.sum : ℝ)) = ((counts.length : ℝ))⁻¹ := by
        rw [hsum]
        push_cast
        rw [mul_comm ((counts.length : ℝ)) ((k : ℝ))]
        rw [div_mul_eq_div_div, div_self hkR, one_div]
      rw [hq, Real.log_inv]
      ring
    have hH : (counts.map (fun x : ℕ =>
        if x ≤ 0 then (0 : ℝ)
        else -(((x : ℝ) / (counts.sum : ℝ))
          * Real.log ((x : ℝ) / (counts.sum : ℝ))))).sum
        = Real.log (counts.length : ℝ) := by
      have hconst : ∀ y ∈ counts.map (fun x : ℕ =>
          if x ≤ 0 then (0 : ℝ)
          else -(((x : ℝ) / (counts.sum : ℝ))
            * Real.log ((x : ℝ) / (counts.sum : ℝ)))),
          y = ((counts.length : ℝ))⁻¹ * Real.log (counts.length : ℝ) := by
        intro y hy
        rcases List.mem_map.mp hy with ⟨x, hx, rfl⟩
        rw [hall x hx]
        exact hterm
      have hrep2 : counts.map (fun x : ℕ =>
          if x ≤ 0 then (0 : ℝ)
          else -(((x : ℝ) / (counts.sum : ℝ))
            * Real.log ((x : ℝ) / (counts.sum : ℝ))))
          = List.replicate (counts.map (fun x : ℕ =>
              if x ≤ 0 then (0 : ℝ)
              else -(((x : ℝ) / (counts.sum : ℝ))
                * Real.log ((x : ℝ) / (counts.sum : ℝ))))).length
              (((counts.length : ℝ))⁻¹ * Real.log (counts.length : ℝ)) :=
        List.eq_replicate.mpr ⟨rfl, hconst⟩
      rw [hrep2, List.sum_replicate, List.length_map, nsmul_eq_mul]
      rw [← mul_assoc]
      rw [mul_inv_cancel₀ hMR, one_mul]
    dsimp only
    rw [hH, div_self hlog]
    rw [min_self, max_eq_right zero_le_one]

/-- Auxiliary: casting an integer list sum to `ℚ` elementwise. -/
theorem sum_map_ratCast (l : List ℤ) :
    (l.map (fun v : ℤ => (v : ℚ))).sum = ((l.sum : ℤ) : ℚ) := by
  induction l with
  | nil => simp
  | cons x t ih =>
      rw [List.map_cons, List.sum_cons, List.sum_cons, ih]
      push_cast
      ring

/-- Counterexample for C6: on a zero-total count list the two Gini
implementations do not return the same value — the contributor-side
`gini` returns `0.0` while the month-side `gini_from_counts` returns
`None` (for the empty list as well). -/
theorem C6_counterexample :
    gini [0] = 0 ∧ gini_from_counts [0] = none
    ∧ gini [] = 0 ∧ gini_from_counts [] = none := by
  refine ⟨by decide, by decide, by decide, by decide⟩

/-- Claim C6 (corrected): for every list of non-negative integer counts
with positive total, the contributor-side `gini` and the month-side
`gini_from_counts` agree — in particular the contributor side's clamp to
`[0, 1]` never changes the value there, and the single-element case gives
`0` on both sides.  They disagree exactly on zero-total input (`0.0`
versus `None`). -/
theorem C6_amended (counts : List ℤ) (hnn : ∀ v ∈ counts, 0 ≤ v)
    (hpos : 0 < counts.sum) :
    gini_from_counts counts = some (gini counts) := by
  have hne : counts ≠ [] := by
    intro h
    rw [h] at hpos
    simp at hpos
  have hfilter : counts.filter (fun v => decide (0 ≤ v)) = counts := by
    rw [List.filter_eq_self]
    intro a ha
    simpa using hnn a ha
  have hperm : (counts.mergeSort).Perm counts := List.mergeSort_perm counts _
  have hlen : (counts.mergeSort).length = counts.length := hperm.length_eq
  have hsum : (counts.mergeSort).sum = counts.sum := hperm.sum_eq
  have hsorted : List.Sorted (· ≤ ·) counts.mergeSort :=
    List.sorted_mergeSort' counts
  have hsℚ : ((counts.mergeSort).map (fun v : ℤ => (v : ℚ))).sum
      = ((counts.sum : ℤ) : ℚ) := by
    rw [sum_map_ratCast, hsum]
  have hslen : ((counts.mergeSort).map (fun v : ℤ => (v : ℚ))).length
      = counts.length := by
    rw [List.length_map, hlen]
  have hsorted' : List.Sorted (· ≤ ·)
      ((counts.mergeSort).map (fun v : ℤ => (v : ℚ))) := by
    apply List.Pairwise.map
    · intro a b hab
      exact_mod_cast hab
    · exact hsorted
  have hnn' : ∀ x ∈ (counts.mergeSort).map (fun v : ℤ => (v : ℚ)), 0 ≤ x := by
    intro x hx
    rcases List.mem_map.mp hx with ⟨v, hv, rfl⟩
    have := hnn v (hperm.mem_iff.mp hv)
    exact_mod_cast this
  have hpos' : (0 : ℚ)
      < ((counts.mergeSort).map (fun v : ℤ => (v : ℚ))).sum := by
    rw [hsℚ]
    exact_mod_cast hpos
  have hlenpos : 0 < counts.length := List.length_pos.mpr hne
  have hlen1 : 1 ≤ ((counts.mergeSort).map (fun v : ℤ => (v : ℚ))).length := by
    rw [hslen]
    omega
  rcases gini_formula_bounds ((counts.mergeSort).map (fun v : ℤ => (v : ℚ)))
      hsorted' hnn' hpos' hlen1 with ⟨hg0, hg1⟩
  rw [hsℚ, hslen] at hg0 hg1
  by_cases hn2 : counts.length < 2
  · have hlone : counts.length = 1 := by omega
    rcases List.length_eq_one.mp hlone with ⟨x, rfl⟩
    have hms : ([x] : List ℤ).mergeSort = [x] := List.perm_singleton.mp hperm
    have hxpos : (0 : ℤ) < x := by simpa using hpos
    have hx0 : ((x : ℚ)) ≠ 0 := by
      have : x ≠ 0 := ne_of_gt hxpos
      exact_mod_cast this
    unfold gini gini_from_counts
    rw [if_neg (not_le.mpr hpos)]
    dsimp only
    rw [hms, if_neg (by simp), if_neg (by simp), hfilter,
      if_pos (Or.inl (by simp))]
    have hws : wsumFrom 1 (([x] : List ℤ).map (fun v : ℤ => (v : ℚ)))
        = (x : ℚ) := by
      simp [wsumFrom]
    rw [hws]
    congr 1
    have hsum1 : (([x] : List ℤ).sum : ℚ) = (x : ℚ) := by simp
    simp only [List.length_cons, List.length_nil]
    push_cast
    field_simp
    norm_num
  · push_neg at hn2
    unfold gini gini_from_counts
    rw [if_neg (not_le.mpr hpos)]
    dsimp only
    rw [if_neg (by rw [hlen]; omega), if_neg hne]
    rw [hfilter]
    rw [if_neg (by
      push_neg
      exact ⟨by omega, ne_of_gt hpos⟩)]
    rw [hlen]
    congr 1
    rw [min_eq_right hg1, max_eq_right hg0]

/-- Witness for C6: the counts `[50, 30, 20]` are non-negative with
positive total, and the two Gini implementations agree on them. -/
theorem C6_amended_witness :
    (∀ v ∈ ([50, 30, 20] : List ℤ), 0 ≤ v)
    ∧ (0 : ℤ) < ([50, 30, 20] : List ℤ).sum
    ∧ gini_from_counts [50, 30, 20] = some (gini [50, 30, 20]) :=
  ⟨by decide, by decide, C6_amended [50, 30, 20] (by decide) (by decide)⟩

/-- Witness for C5: twelve even months give entropy exactly `1`; one
active month among three gives exactly `0`; an all-zero distribution
gives `None`. -/
theorem C5_entropy_norm_witness :
    entropy_norm [1, 1, 1, 1, 1, 1, 1, 1, 1, 1, 1, 1] = some 1
    ∧ entropy_norm [0, 5, 0] = some 0
    ∧ entropy_norm [0, 0] = none :=
  ⟨(C5_entropy_norm [1, 1, 1, 1, 1, 1, 1, 1, 1, 1, 1, 1]).2.2.2.2 1
      (by decide) (by decide) (by decide),
   (C5_entropy_norm [0, 5, 0]).2.2.2.1 [0] 5 [0] rfl (by decide) (by decide),
   (C5_entropy_norm [0, 0]).1 rfl⟩

/-- Counterexample for C8: the claim quantifies over every no-reply
host, but the code's normalisation regex fixes the host to
`github.com`.  Two emails that are equal under the spec's host-generic
normalisation (a GitLab no-reply pair) resolve to different identity
keys; moreover two empty emails are equal after normalisation yet fall
back to different name-based keys. -/
theorem C8_counterexample :
    spec_normalize_email "123+alice@users.noreply.gitlab.com".data
        = spec_normalize_email "alice@users.noreply.gitlab.com".data
    ∧ author_id "x".data "123+alice@users.noreply.gitlab.com".data
        ≠ author_id "y".data "alice@users.noreply.gitlab.com".data
    ∧ normalize_email "123+alice@users.noreply.gitlab.com".data
        ≠ normalize_email "alice@users.noreply.gitlab.com".data
    ∧ author_id "x".data [] ≠ author_id "y".data [] := by
  refine ⟨by decide, by decide, by decide, by decide⟩

/-- Claim C8 (corrected): if two emails are equal and non-empty after
the code's normalisation (case-folding and stripping, and collapsing
`digits+local@users.noreply.github.com` to
`local@users.noreply.github.com` for the GitHub host only), then
`author_id` returns the same identity key regardless of the display
names. -/
theorem C8_amended (n₁ n₂ e₁ e₂ : List Char)
    (h : normalize_email e₁ = normalize_email e₂)
    (hne : normalize_email e₁ ≠ []) :
    author_id n₁ e₁ = author_id n₂ e₂ := by
  unfold author_id
  rw [← h, if_neg hne, if_neg hne]

/-- Witness for C8: a numeric-prefixed GitHub no-reply email and the
case-folded plain form resolve to the same key under different names. -/
theorem C8_amended_witness :
    normalize_email "12345+Alice@users.noreply.GitHub.com".data
        = normalize_email "ALICE@users.noreply.github.com".data
    ∧ author_id "Alice Dev".data "12345+Alice@users.noreply.GitHub.com".data
        = author_id "Bob".data "ALICE@users.noreply.github.com".data :=
  ⟨by decide, C8_amended "Alice Dev".data "Bob".data
    "12345+Alice@users.noreply.GitHub.com".data
    "ALICE@users.noreply.github.com".data (by decide) (by decide)⟩

end DocStability
